import Mathlib

/-!
Shallow embedding of the gitlab-stats backend (app/gitlab_client.py,
app/services.py, app/routes.py) and proofs about its behaviour.
-/

namespace GitlabStats

/-- A commit record as consumed by `get_project_commits`: exactly the four
fields the source extracts into its dedup tuple. -/
structure Commit where
  id : String
  author_name : String
  authored_date : String
  title : String
deriving DecidableEq, Repr

/-- A project record from the group listing: `id` is always read with
`project[...]`, `name` with `project.get(..., default)`, so `name` may be
absent. -/
structure Project where
  id : Nat
  name : Option String
deriving DecidableEq, Repr

/-- A merge request as consumed by `_collect_project_stats`: only the
(optionally present) author display name matters. -/
structure MergeRequest where
  author_name : Option String
deriving DecidableEq, Repr

/-- Dedup core of `get_project_commits` (gitlab_client.py lines 182-249):
commits gathered from all branches are inserted into a Python set keyed by
the full tuple (id, author_name, authored_date, title) and then listed out.
The input is the concatenation of the per-branch commit lists; the output
has exactly one element per distinct tuple (order of a Python set is
unspecified; counts and membership are what the claims speak about). -/
def get_project_commits_from_branches (branchCommits : List (List Commit)) : List Commit :=
  branchCommits.flatten.dedup

/-- One page answer of the remote API, as seen by the pagination loops: either
a JSON list of items together with the presence bit of a `next` link
relation, or an HTTP-level failure (`raise_for_status` raising, carrying the
status code). -/
inductive Resp (α : Type) where
  | ok (items : List α) (hasNext : Bool)
  | err (status : Nat)
deriving DecidableEq, Repr

/-- Pagination loop of `get_group_projects` (gitlab_client.py lines 83-117),
parameterised by the current page number and the sequence of page answers the
server gives to consecutive requests.  Returns the accumulated items and the
list of `(page, per_page)` request parameters actually sent.  Faithful to the
source: an empty page stops before extending; a page without a `next` link
stops after extending; any exception is caught, logged and stops the loop,
returning what was accumulated so far (nothing is raised). -/
def get_group_projects {α : Type} : Nat → List (Resp α) → List α × List (Nat × Nat)
  | _, [] => ([], [])
  | page, Resp.err _ :: _ => ([], [(page, 100)])
  | page, Resp.ok items hasNext :: rest =>
    if items.isEmpty then ([], [(page, 100)])
    else if hasNext then
      let r := get_group_projects (page + 1) rest
      (items ++ r.1, (page, 100) :: r.2)
    else (items, [(page, 100)])

/-- A page answer on which the loop stops: an error, an empty page, or a page
without a `next` link. -/
def stopsResp {α : Type} : Resp α → Bool
  | Resp.ok items hasNext => items.isEmpty || !hasNext
  | Resp.err _ => true

/-- A page answer that is not an HTTP failure. -/
def respOk {α : Type} : Resp α → Bool
  | Resp.ok _ _ => true
  | Resp.err _ => false

/-- The items carried by a page answer (none for a failure). -/
def itemsOf {α : Type} : Resp α → List α
  | Resp.ok items _ => items
  | Resp.err _ => []

/-- Per-author tallies, as held in the defaultdict entries of services.py. -/
structure ContributorStats where
  commits : Nat
  merge_requests : Nat
deriving DecidableEq, Repr

/-- An entry of `project_stats[...]` recording a failed data source:
`{type, error}` (services.py lines 142-145 and 164-167). -/
structure ErrEntry where
  type : String
  error : String
deriving DecidableEq, Repr

/-- The `status` sub-record of a ProjectStats (services.py lines 120-123). -/
structure StatusFlags where
  commits_available : Bool
  merge_requests_available : Bool
deriving DecidableEq, Repr

/-- The per-project stats record built by `_collect_project_stats`.  The
contributors defaultdict is modelled as an insertion-ordered association
list. -/
structure ProjectStats where
  id : Nat
  name : String
  commit_count : Nat
  merge_request_count : Nat
  contributors : List (String × ContributorStats)
  errors : List ErrEntry
  status : StatusFlags
deriving DecidableEq, Repr

/-- Defaultdict read: the tallies stored for an author, `{commits: 0,
merge_requests: 0}` when the author has no entry yet. -/
def lookupCS : List (String × ContributorStats) → String → ContributorStats
  | [], _ => ⟨0, 0⟩
  | (b, cs) :: rest, a => if b = a then cs else lookupCS rest a

/-- Defaultdict update: add `dc` to the `commits` field and `dm` to the
`merge_requests` field of the entry for author `a`, inserting a fresh zero
entry first when absent (Python's auto-vivification, appending at the end in
insertion order). -/
def addCS : List (String × ContributorStats) → String → Nat → Nat →
    List (String × ContributorStats)
  | [], a, dc, dm => [(a, ⟨dc, dm⟩)]
  | (b, cs) :: rest, a, dc, dm =>
    if b = a then (b, ⟨cs.commits + dc, cs.merge_requests + dm⟩) :: rest
    else (b, cs) :: addCS rest a dc dm

/-- `_collect_project_stats` (services.py lines 108-170).  The two fetch
outcomes — what `get_project_commits` and `get_project_merge_requests` would
return or raise for this project — are passed in explicitly.  Reading
`project[\x27name\x27]` on a record without a name raises a KeyError (whose
Python string form is `\x27name\x27`) before any fetch is attempted; every
fetch failure is caught locally, recorded in `errors`, and never re-raised:
the function otherwise always returns a result. -/
def _collect_project_stats (p : Project) (commitsR : Except String (List Commit))
    (mrsR : Except String (List MergeRequest)) : Except String ProjectStats :=
  match p.name with
  | none => Except.error "\x27name\x27"
  | some nm =>
    let base : ProjectStats :=
      { id := p.id, name := nm, commit_count := 0, merge_request_count := 0,
        contributors := [], errors := [],
        status := { commits_available := false, merge_requests_available := false } }
    let s1 : ProjectStats := match commitsR with
      | Except.ok commits =>
        { base with
            commit_count := commits.length,
            status := { base.status with commits_available := true },
            contributors :=
              commits.foldl (fun m (c : Commit) => addCS m c.author_name 1 0) base.contributors }
      | Except.error e =>
        { base with errors := base.errors ++ [{ type := "commits", error := e }] }
    let s2 : ProjectStats := match mrsR with
      | Except.ok mrs =>
        { s1 with
            merge_request_count := mrs.length,
            status := { s1.status with merge_requests_available := true },
            contributors :=
              mrs.foldl (fun m (mr : MergeRequest) =>
                match mr.author_name with
                | some a => addCS m a 0 1
                | none => m) s1.contributors }
      | Except.error e =>
        { s1 with errors := s1.errors ++ [{ type := "merge_requests", error := e }] }
    Except.ok s2

/-- An entry of `skipped_projects` (services.py lines 37-41 and 87-91). -/
structure SkippedEntry where
  id : Nat
  name : String
  reason : String
deriving DecidableEq, Repr

/-- One author line of the formatted per-project view (services.py lines
53-60). -/
structure FormattedContributor where
  name : String
  commits : Nat
  merge_requests : Nat
deriving DecidableEq, Repr

/-- The formatted per-project view appended to `stats[\x27projects\x27]`
(services.py lines 48-61). -/
structure FormattedProject where
  id : Nat
  name : String
  commits : Nat
  merge_requests : Nat
  contributors : List FormattedContributor
deriving DecidableEq, Repr

/-- An entry of `partial_data_projects` (services.py lines 70-74). -/
structure PartialEntry where
  id : Nat
  name : String
  errors : List ErrEntry
deriving DecidableEq, Repr

/-- The summary block appended after the loop (services.py lines 95-100). -/
structure Summary where
  total_projects : Nat
  processed_projects : Nat
  skipped_projects : Nat
  partial_data_projects : Nat
deriving DecidableEq, Repr

/-- The group report built by `collect_stats` (services.py lines 16-28):
the mutable `stats` dict, with the contributors defaultdict again modelled as
an insertion-ordered association list. -/
structure GroupReport where
  total_commits : Nat
  total_merge_requests : Nat
  total_projects : Nat
  processed_projects : Nat
  projects : List FormattedProject
  skipped_projects : List SkippedEntry
  partial_data_projects : List PartialEntry
  contributors : List (String × ContributorStats)
  summary : Summary
deriving DecidableEq, Repr

/-- The initial `stats` dict of `collect_stats`, before the project loop
(`summary` is attached only after the loop; it starts as zeros here). -/
def initReport (totalProjects : Nat) : GroupReport :=
  { total_commits := 0, total_merge_requests := 0,
    total_projects := totalProjects, processed_projects := 0,
    projects := [], skipped_projects := [], partial_data_projects := [],
    contributors := [], summary := ⟨0, 0, 0, 0⟩ }

/-- One iteration of the project loop of `collect_stats` (services.py lines
30-92), with the per-project fetch outcomes supplied by `fetchC`/`fetchM`
keyed on the project id.  Project id 174 is skipped up front; a raised
per-project failure is downgraded to a `skipped_projects` entry; otherwise
the per-project stats are folded into the running report. -/
def stepProject (fetchC : Nat → Except String (List Commit))
    (fetchM : Nat → Except String (List MergeRequest))
    (stats : GroupReport) (p : Project) : GroupReport :=
  let pname := p.name.getD "Unknown"
  if p.id = 174 then
    { stats with skipped_projects := stats.skipped_projects
        ++ [⟨p.id, pname, "Project ID temporarily excluded"⟩] }
  else
    match _collect_project_stats p (fetchC p.id) (fetchM p.id) with
    | Except.error e =>
      { stats with skipped_projects := stats.skipped_projects ++ [⟨p.id, pname, e⟩] }
    | Except.ok ps =>
      let formatted : FormattedProject :=
        ⟨ps.id, ps.name, ps.commit_count, ps.merge_request_count,
          ps.contributors.map (fun ac => ⟨ac.1, ac.2.commits, ac.2.merge_requests⟩)⟩
      let contribs :=
        ps.contributors.foldl
          (fun m ac => addCS m ac.1 ac.2.commits ac.2.merge_requests)
          stats.contributors
      let partialList :=
        if ps.errors.isEmpty then stats.partial_data_projects
        else stats.partial_data_projects ++ [⟨p.id, pname, ps.errors⟩]
      { stats with
          contributors := contribs,
          partial_data_projects := partialList,
          total_commits := stats.total_commits + ps.commit_count,
          total_merge_requests := stats.total_merge_requests + ps.merge_request_count,
          projects := stats.projects ++ [formatted],
          processed_projects := stats.processed_projects + 1 }

/-- `collect_stats` (services.py lines 11-106): loop over the listed projects
and attach the summary afterwards. -/
def collect_stats (projects : List Project)
    (fetchC : Nat → Except String (List Commit))
    (fetchM : Nat → Except String (List MergeRequest)) : GroupReport :=
  let s := projects.foldl (stepProject fetchC fetchM) (initReport projects.length)
  { s with summary := ⟨s.total_projects, s.processed_projects,
      s.skipped_projects.length, s.partial_data_projects.length⟩ }

/-- What the `/stats` route hands back: a structured error with an HTTP
status, or the report. -/
inductive RouteResult where
  | errorResp (status : Nat) (msg : String)
  | report (r : GroupReport)
deriving DecidableEq, Repr

/-- The stats-relevant behaviour of the `/stats` route (routes.py lines
36-62): list the group projects through the pagination loop; an empty
resulting list is answered with a 404 error; otherwise the collected report
is returned. -/
def get_stats (groupId : String) (resps : List (Resp Project))
    (fetchC : Nat → Except String (List Commit))
    (fetchM : Nat → Except String (List MergeRequest)) : RouteResult :=
  let projects := (get_group_projects 1 resps).1
  if projects.isEmpty then
    RouteResult.errorResp 404 ("No projects found in group " ++ groupId)
  else
    RouteResult.report (collect_stats projects fetchC fetchM)

/-- Number of commits in a list authored by `a`. -/
def countCommitsBy : List Commit → String → Nat
  | [], _ => 0
  | c :: rest, a => (if c.author_name = a then 1 else 0) + countCommitsBy rest a

/-- Number of merge requests in a list whose resolvable author is `a`. -/
def countMRsBy : List MergeRequest → String → Nat
  | [], _ => 0
  | mr :: rest, a => (if mr.author_name = some a then 1 else 0) + countMRsBy rest a

/-- Sum of the `commits` fields of all entries of an association list stored
under key `a`. -/
def sumCFor : List (String × ContributorStats) → String → Nat
  | [], _ => 0
  | (b, cs) :: rest, a => (if b = a then cs.commits else 0) + sumCFor rest a

/-- Sum of the `merge_requests` fields of all entries of an association list
stored under key `a`. -/
def sumMFor : List (String × ContributorStats) → String → Nat
  | [], _ => 0
  | (b, cs) :: rest, a => (if b = a then cs.merge_requests else 0) + sumMFor rest a

/-- The `commits` value shown for author `a` in a formatted contributor list
(0 when the author does not appear). -/
def fcCommitsOf : List FormattedContributor → String → Nat
  | [], _ => 0
  | fc :: rest, a => if fc.name = a then fc.commits else fcCommitsOf rest a

/-- The `merge_requests` value shown for author `a` in a formatted
contributor list (0 when the author does not appear). -/
def fcMRsOf : List FormattedContributor → String → Nat
  | [], _ => 0
  | fc :: rest, a => if fc.name = a then fc.merge_requests else fcMRsOf rest a

/-- The keys of a contributors association list. -/
def keysOf (m : List (String × ContributorStats)) : List String :=
  m.map Prod.fst

/-- The components of the running report that the loop both reads and
writes for data collection — everything except `skipped_projects`,
`total_projects` and `summary`. -/
def coreOf (s : GroupReport) :
    Nat × Nat × Nat × List FormattedProject × List (String × ContributorStats)
      × List PartialEntry :=
  (s.total_commits, s.total_merge_requests, s.processed_projects,
   s.projects, s.contributors, s.partial_data_projects)

/-- Mapping a list and then taking the Finset of its elements is the image of
the Finset of the original elements. -/
lemma toFinset_map_eq {α β : Type} [DecidableEq α] [DecidableEq β] (f : α → β) :
    ∀ l : List α, (l.map f).toFinset = l.toFinset.image f
  | [] => by simp
  | a :: l => by simp [toFinset_map_eq f l]

/-- Reading the map after a defaultdict update: the target author's tallies
grew by the added amounts, every other author's entry is untouched. -/
lemma lookup_addCS (t : String) (dc dm : Nat) :
    ∀ (m : List (String × ContributorStats)) (a : String),
      lookupCS (addCS m t dc dm) a
        = if t = a then
            ⟨(lookupCS m a).commits + dc, (lookupCS m a).merge_requests + dm⟩
          else lookupCS m a
  | [], a => by
    by_cases h : t = a <;> simp [addCS, lookupCS, h]
  | (b, cs) :: rest, a => by
    by_cases hbt : b = t
    · subst hbt
      by_cases hba : b = a <;> simp [addCS, lookupCS, hba]
    · by_cases hba : b = a
      · have hta : ¬t = a := fun h => hbt (hba.trans h.symm)
        have hat : ¬a = t := fun h => hta h.symm
        simp [addCS, lookupCS, hbt, hba, hta, hat]
      · simp [addCS, lookupCS, hbt, hba, lookup_addCS t dc dm rest a]

/-- A defaultdict update leaves the key list unchanged when the target author
is already present, and appends the author otherwise. -/
lemma keysOf_addCS (t : String) (dc dm : Nat) :
    ∀ m : List (String × ContributorStats),
      keysOf (addCS m t dc dm)
        = if t ∈ keysOf m then keysOf m else keysOf m ++ [t]
  | [] => by simp [addCS, keysOf]
  | (b, cs) :: rest => by
    by_cases hbt : b = t
    · subst hbt
      simp [addCS, keysOf]
    · have hne : ¬t = b := fun h => hbt h.symm
      have hstep : addCS ((b, cs) :: rest) t dc dm = (b, cs) :: addCS rest t dc dm := by
        simp [addCS, hbt]
      rw [hstep, show keysOf ((b, cs) :: addCS rest t dc dm)
            = b :: keysOf (addCS rest t dc dm) from rfl,
          show keysOf ((b, cs) :: rest) = b :: keysOf rest from rfl,
          keysOf_addCS t dc dm rest]
      by_cases hmem : t ∈ keysOf rest
      · simp [hmem, hne]
      · simp [hmem, hne]

/-- Defaultdict updates keep the keys pairwise distinct. -/
lemma nodup_keys_addCS (t : String) (dc dm : Nat)
    (m : List (String × ContributorStats)) (h : (keysOf m).Nodup) :
    (keysOf (addCS m t dc dm)).Nodup := by
  rw [keysOf_addCS]
  by_cases hmem : t ∈ keysOf m
  · simpa [hmem] using h
  · simp [hmem, List.nodup_append, h]

/-- An author outside the key set reads as the zero entry. -/
lemma lookup_not_mem (a : String) :
    ∀ m : List (String × ContributorStats),
      a ∉ keysOf m → lookupCS m a = ⟨0, 0⟩
  | [], _ => rfl
  | (b, cs) :: rest, h => by
    have hba : ¬b = a := by
      intro hba
      exact h (by simp [keysOf, hba])
    have hrest : a ∉ keysOf rest := fun hm => h (by simp [keysOf] at hm ⊢; tauto)
    simp [lookupCS, hba, lookup_not_mem a rest hrest]

/-- An author outside the key set contributes zero to the commit sum. -/
lemma sumCFor_not_mem (a : String) :
    ∀ m : List (String × ContributorStats), a ∉ keysOf m → sumCFor m a = 0
  | [], _ => rfl
  | (b, cs) :: rest, h => by
    have hba : ¬b = a := by
      intro hba
      exact h (by simp [keysOf, hba])
    have hrest : a ∉ keysOf rest := fun hm => h (by simp [keysOf] at hm ⊢; tauto)
    simp [sumCFor, hba, sumCFor_not_mem a rest hrest]

/-- An author outside the key set contributes zero to the merge-request sum. -/
lemma sumMFor_not_mem (a : String) :
    ∀ m : List (String × ContributorStats), a ∉ keysOf m → sumMFor m a = 0
  | [], _ => rfl
  | (b, cs) :: rest, h => by
    have hba : ¬b = a := by
      intro hba
      exact h (by simp [keysOf, hba])
    have hrest : a ∉ keysOf rest := fun hm => h (by simp [keysOf] at hm ⊢; tauto)
    simp [sumMFor, hba, sumMFor_not_mem a rest hrest]

/-- With pairwise distinct keys, the per-key commit sum is just the stored
entry. -/
lemma sumCFor_eq_lookup (a : String) :
    ∀ m : List (String × ContributorStats),
      (keysOf m).Nodup → sumCFor m a = (lookupCS m a).commits
  | [], _ => rfl
  | (b, cs) :: rest, h => by
    simp [keysOf] at h
    by_cases hba : b = a
    · subst hba
      have : b ∉ keysOf rest := by
        intro hm
        simp [keysOf] at hm
        rcases hm with ⟨cs2, hcs2⟩
        exact h.1 cs2 hcs2
      simp [sumCFor, lookupCS, sumCFor_not_mem b rest this]
    · simp [sumCFor, lookupCS, hba, sumCFor_eq_lookup a rest h.2]

/-- With pairwise distinct keys, the per-key merge-request sum is just the
stored entry. -/
lemma sumMFor_eq_lookup (a : String) :
    ∀ m : List (String × ContributorStats),
      (keysOf m).Nodup → sumMFor m a = (lookupCS m a).merge_requests
  | [], _ => rfl
  | (b, cs) :: rest, h => by
    simp [keysOf] at h
    by_cases hba : b = a
    · subst hba
      have : b ∉ keysOf rest := by
        intro hm
        simp [keysOf] at hm
        rcases hm with ⟨cs2, hcs2⟩
        exact h.1 cs2 hcs2
      simp [sumMFor, lookupCS, sumMFor_not_mem b rest this]
    · simp [sumMFor, lookupCS, hba, sumMFor_eq_lookup a rest h.2]

/-- Folding the commit tally over a commit list: each author ends with their
previous tallies plus one commit per authored commit; merge requests are
untouched. -/
lemma lookup_foldl_commits :
    ∀ (commits : List Commit) (m : List (String × ContributorStats)) (a : String),
      lookupCS (commits.foldl (fun m (c : Commit) => addCS m c.author_name 1 0) m) a
        = ⟨(lookupCS m a).commits + countCommitsBy commits a,
           (lookupCS m a).merge_requests⟩
  | [], m, a => by simp [countCommitsBy]
  | c :: rest, m, a => by
    rw [List.foldl_cons, lookup_foldl_commits rest _ a, lookup_addCS]
    by_cases h : c.author_name = a <;> simp [countCommitsBy, h] <;> omega

/-- Folding the merge-request tally over a merge-request list: each author
ends with their previous tallies plus one merge request per authored MR with
a resolvable author; commits are untouched. -/
lemma lookup_foldl_mrs :
    ∀ (mrs : List MergeRequest) (m : List (String × ContributorStats)) (a : String),
      lookupCS (mrs.foldl (fun m (mr : MergeRequest) =>
          match mr.author_name with
          | some x => addCS m x 0 1
          | none => m) m) a
        = ⟨(lookupCS m a).commits,
           (lookupCS m a).merge_requests + countMRsBy mrs a⟩
  | [], m, a => by simp [countMRsBy]
  | mr :: rest, m, a => by
    rw [List.foldl_cons]
    cases hauth : mr.author_name with
    | none =>
      rw [lookup_foldl_mrs rest m a]
      simp [countMRsBy, hauth]
    | some x =>
      rw [lookup_foldl_mrs rest _ a, lookup_addCS]
      by_cases h : x = a <;> simp [countMRsBy, hauth, h] <;> omega

/-- Folding a whole per-project contributor list into the group map: each
author gains the sum of the folded entries recorded under their name. -/
lemma lookup_foldl_entries :
    ∀ (entries : List (String × ContributorStats))
      (m : List (String × ContributorStats)) (a : String),
      lookupCS (entries.foldl
          (fun m ac => addCS m ac.1 ac.2.commits ac.2.merge_requests) m) a
        = ⟨(lookupCS m a).commits + sumCFor entries a,
           (lookupCS m a).merge_requests + sumMFor entries a⟩
  | [], m, a => by simp [sumCFor, sumMFor]
  | e :: rest, m, a => by
    rw [List.foldl_cons, lookup_foldl_entries rest _ a, lookup_addCS]
    by_cases h : e.1 = a <;> simp [sumCFor, sumMFor, h] <;> omega

/-- Distinctness of keys survives the commit-tally fold. -/
lemma nodup_keys_foldl_commits :
    ∀ (commits : List Commit) (m : List (String × ContributorStats)),
      (keysOf m).Nodup →
      (keysOf (commits.foldl (fun m (c : Commit) => addCS m c.author_name 1 0) m)).Nodup
  | [], _, h => h
  | c :: rest, m, h => by
    rw [List.foldl_cons]
    exact nodup_keys_foldl_commits rest _ (nodup_keys_addCS _ _ _ _ h)

/-- Distinctness of keys survives the merge-request-tally fold. -/
lemma nodup_keys_foldl_mrs :
    ∀ (mrs : List MergeRequest) (m : List (String × ContributorStats)),
      (keysOf m).Nodup →
      (keysOf (mrs.foldl (fun m (mr : MergeRequest) =>
          match mr.author_name with
          | some x => addCS m x 0 1
          | none => m) m)).Nodup
  | [], _, h => h
  | mr :: rest, m, h => by
    rw [List.foldl_cons]
    cases hauth : mr.author_name with
    | none => exact nodup_keys_foldl_mrs rest m (by simpa [hauth] using h)
    | some x => exact nodup_keys_foldl_mrs rest _ (nodup_keys_addCS _ _ _ _ h)

/-- The contributor map a successful `_collect_project_stats` returns has
pairwise distinct author keys. -/
lemma collect_contrib_nodup (p : Project) (commitsR : Except String (List Commit))
    (mrsR : Except String (List MergeRequest)) (ps : ProjectStats)
    (h : _collect_project_stats p commitsR mrsR = Except.ok ps) :
    (keysOf ps.contributors).Nodup := by
  unfold _collect_project_stats at h
  cases hname : p.name with
  | none => rw [hname] at h; exact absurd h (by simp)
  | some nm =>
    rw [hname] at h
    simp only at h
    have hbase : (keysOf ([] : List (String × ContributorStats))).Nodup := by
      simp [keysOf]
    cases hc : commitsR with
    | ok commits =>
      cases hm : mrsR with
      | ok mrs =>
        rw [hc, hm] at h
        simp only [Except.ok.injEq] at h
        rw [← h]
        exact nodup_keys_foldl_mrs mrs _ (nodup_keys_foldl_commits commits _ hbase)
      | error e =>
        rw [hc, hm] at h
        simp only [Except.ok.injEq] at h
        rw [← h]
        exact nodup_keys_foldl_commits commits _ hbase
    | error e =>
      cases hm : mrsR with
      | ok mrs =>
        rw [hc, hm] at h
        simp only [Except.ok.injEq] at h
        rw [← h]
        exact nodup_keys_foldl_mrs mrs _ hbase
      | error e2 =>
        rw [hc, hm] at h
        simp only [Except.ok.injEq] at h
        rw [← h]
        exact hbase

/-- Reading the formatted contributor view is reading the underlying map:
commits field. -/
lemma fcCommitsOf_map (a : String) :
    ∀ m : List (String × ContributorStats),
      fcCommitsOf (m.map (fun ac => ⟨ac.1, ac.2.commits, ac.2.merge_requests⟩)) a
        = (lookupCS m a).commits
  | [] => rfl
  | (b, cs) :: rest => by
    by_cases h : b = a <;> simp [fcCommitsOf, lookupCS, h, fcCommitsOf_map a rest]

/-- Reading the formatted contributor view is reading the underlying map:
merge-requests field. -/
lemma fcMRsOf_map (a : String) :
    ∀ m : List (String × ContributorStats),
      fcMRsOf (m.map (fun ac => ⟨ac.1, ac.2.commits, ac.2.merge_requests⟩)) a
        = (lookupCS m a).merge_requests
  | [] => rfl
  | (b, cs) :: rest => by
    by_cases h : b = a <;> simp [fcMRsOf, lookupCS, h, fcMRsOf_map a rest]

/-- A property preserved by every fold step holds after the whole fold. -/
lemma foldl_preserve {σ β : Type} (f : σ → β → σ) (P : σ → Prop)
    (hstep : ∀ s x, P s → P (f s x)) :
    ∀ (l : List β) (s : σ), P s → P (l.foldl f s)
  | [], _, h => h
  | x :: l, s, h => foldl_preserve f P hstep l (f s x) (hstep s x h)

/-- Counterexample to C1: two branches each carrying one commit with the same
id but differing titles.  The tuple-keyed set keeps both records, so the
result has two elements for one distinct id: deduplication is NOT by id
alone, and the size formula of the claim fails (here |C1 u C2| - N = 1
whichever way the union is read, but the result has 2 elements). -/
theorem c1_counterexample :
    (get_project_commits_from_branches
      [[⟨"a", "u", "d", "t1"⟩], [⟨"a", "u", "d", "t2"⟩]]).length = 2 ∧
    ((get_project_commits_from_branches
      [[⟨"a", "u", "d", "t1"⟩], [⟨"a", "u", "d", "t2"⟩]]).map Commit.id).dedup = ["a"] := by
  constructor <;> rfl

/-- C1 (amended): `get_project_commits` deduplicates by the full record tuple
(id, author_name, authored_date, title), not by id alone.  Under the spec's
own consistency assumption — any two fetched records sharing an id are
identical — and with ids distinct inside each branch list, the result has
pairwise distinct ids (one representative per id) and, for two branch lists
C1 and C2 sharing N common ids, exactly |C1| + |C2| - N elements. -/
theorem c1_dedup_amended (cA cB : List Commit)
    (hcons : ∀ c ∈ cA ++ cB, ∀ c' ∈ cA ++ cB, c.id = c'.id → c = c')
    (hA : (cA.map Commit.id).Nodup) (hB : (cB.map Commit.id).Nodup) :
    ((get_project_commits_from_branches [cA, cB]).map Commit.id).Nodup ∧
    (get_project_commits_from_branches [cA, cB]).length
      + ((cA.map Commit.id).toFinset ∩ (cB.map Commit.id).toFinset).card
      = cA.length + cB.length := by
  have hjoin : ([cA, cB] : List (List Commit)).flatten = cA ++ cB := by simp
  unfold get_project_commits_from_branches
  rw [hjoin]
  constructor
  · exact List.Nodup.map_on
      (fun x hx y hy hxy =>
        hcons x (List.mem_dedup.mp hx) y (List.mem_dedup.mp hy) hxy)
      (List.nodup_dedup _)
  · have hlen : (cA ++ cB).dedup.length = ((cA ++ cB).toFinset).card :=
      (List.card_toFinset _).symm
    have hinj : Set.InjOn Commit.id ((cA ++ cB).toFinset : Set Commit) := by
      intro x hx y hy hxy
      exact hcons x (List.mem_toFinset.mp hx) y (List.mem_toFinset.mp hy) hxy
    have himg : ((cA ++ cB).toFinset.image Commit.id).card = ((cA ++ cB).toFinset).card :=
      Finset.card_image_of_injOn hinj
    have hsplit : (cA ++ cB).toFinset.image Commit.id
        = (cA.map Commit.id).toFinset ∪ (cB.map Commit.id).toFinset := by
      rw [List.toFinset_append, Finset.image_union, toFinset_map_eq, toFinset_map_eq]
    have hcardA : ((cA.map Commit.id).toFinset).card = cA.length := by
      rw [List.card_toFinset, List.dedup_eq_self.mpr hA, List.length_map]
    have hcardB : ((cB.map Commit.id).toFinset).card = cB.length := by
      rw [List.card_toFinset, List.dedup_eq_self.mpr hB, List.length_map]
    calc (cA ++ cB).dedup.length
          + ((cA.map Commit.id).toFinset ∩ (cB.map Commit.id).toFinset).card
        = ((cA.map Commit.id).toFinset ∪ (cB.map Commit.id).toFinset).card
          + ((cA.map Commit.id).toFinset ∩ (cB.map Commit.id).toFinset).card := by
          rw [hlen, ← himg, hsplit]
      _ = ((cA.map Commit.id).toFinset).card + ((cB.map Commit.id).toFinset).card :=
          Finset.card_union_add_card_inter _ _
      _ = cA.length + cB.length := by rw [hcardA, hcardB]

/-- Witness for the amended C1 at concrete branch lists sharing one id. -/
theorem c1_dedup_amended_witness :
    ((∀ c ∈ ([⟨"a", "u", "d", "t"⟩, ⟨"b", "v", "d", "t"⟩] : List Commit)
        ++ [⟨"a", "u", "d", "t"⟩, ⟨"c", "w", "d", "t"⟩],
      ∀ c' ∈ ([⟨"a", "u", "d", "t"⟩, ⟨"b", "v", "d", "t"⟩] : List Commit)
        ++ [⟨"a", "u", "d", "t"⟩, ⟨"c", "w", "d", "t"⟩], c.id = c'.id → c = c')) ∧
    (((get_project_commits_from_branches
        [[⟨"a", "u", "d", "t"⟩, ⟨"b", "v", "d", "t"⟩],
         [⟨"a", "u", "d", "t"⟩, ⟨"c", "w", "d", "t"⟩]]).map Commit.id).Nodup ∧
      (get_project_commits_from_branches
        [[⟨"a", "u", "d", "t"⟩, ⟨"b", "v", "d", "t"⟩],
         [⟨"a", "u", "d", "t"⟩, ⟨"c", "w", "d", "t"⟩]]).length
        + ((([⟨"a", "u", "d", "t"⟩, ⟨"b", "v", "d", "t"⟩] : List Commit).map Commit.id).toFinset
            ∩ (([⟨"a", "u", "d", "t"⟩, ⟨"c", "w", "d", "t"⟩] : List Commit).map Commit.id).toFinset).card
        = ([⟨"a", "u", "d", "t"⟩, ⟨"b", "v", "d", "t"⟩] : List Commit).length
          + ([⟨"a", "u", "d", "t"⟩, ⟨"c", "w", "d", "t"⟩] : List Commit).length) :=
  ⟨by decide,
   c1_dedup_amended
     [⟨"a", "u", "d", "t"⟩, ⟨"b", "v", "d", "t"⟩]
     [⟨"a", "u", "d", "t"⟩, ⟨"c", "w", "d", "t"⟩]
     (by decide) (by decide) (by decide)⟩

/-- Behaviour of the pagination loop at any starting page: on a sequence of
successful page answers containing a stopping page, it consumes exactly the
pages up to and including the first stopping one, sends consecutive
`(page, per_page=100)` requests, and returns the concatenation of the items
of the consumed pages. -/
lemma get_group_projects_pages {α : Type} :
    ∀ (resps : List (Resp α)) (page : Nat),
      (∀ r ∈ resps, respOk r = true) →
      (∃ r ∈ resps, stopsResp r = true) →
      (get_group_projects page resps).2
        = (List.range' page ((resps.takeWhile (fun r => !stopsResp r)).length + 1)).map
            (fun i => (i, 100)) ∧
      (get_group_projects page resps).1
        = ((resps.take ((resps.takeWhile (fun r => !stopsResp r)).length + 1)).map
            itemsOf).flatten := by
  intro resps
  induction resps with
  | nil => intro page _ hstop; simp at hstop
  | cons r rest ih =>
    intro page hok hstop
    cases r with
    | err s =>
      have := hok (Resp.err s) (by simp)
      simp [respOk] at this
    | ok items hasNext =>
      by_cases hstopr : stopsResp (Resp.ok items hasNext) = true
      · have htw : ((Resp.ok items hasNext :: rest).takeWhile
            (fun r => !stopsResp r)).length = 0 := by
          simp [List.takeWhile, hstopr]
        rw [htw]
        have hcases : items.isEmpty = true ∨ hasNext = false := by
          simpa [stopsResp, Bool.or_eq_true] using hstopr
        rcases hcases with hemp | hnx
        · have hitems : items = [] := List.isEmpty_iff.mp hemp
          simp [get_group_projects, hemp, hitems, itemsOf, List.range'_one]
        · by_cases hemp : items.isEmpty = true
          · have hitems : items = [] := List.isEmpty_iff.mp hemp
            simp [get_group_projects, hemp, hitems, itemsOf, List.range'_one]
          · simp [get_group_projects, hemp, hnx, itemsOf, List.range'_one]
      · have hnot : stopsResp (Resp.ok items hasNext) = false :=
          Bool.eq_false_iff.mpr hstopr
        have hemp : items.isEmpty = false := by
          rcases Bool.eq_false_iff.mp hnot with _
          cases h1 : items.isEmpty with
          | false => rfl
          | true => simp [stopsResp, h1] at hnot
        have hnx : hasNext = true := by
          cases h2 : hasNext with
          | true => rfl
          | false => simp [stopsResp, h2] at hnot
        subst hnx
        have hstop' : ∃ x ∈ rest, stopsResp x = true := by
          rcases hstop with ⟨x, hx, hxs⟩
          rcases List.mem_cons.mp hx with hxr | hxrest
          · rw [hxr] at hxs; exact absurd hxs hstopr
          · exact ⟨x, hxrest, hxs⟩
        have hok' : ∀ x ∈ rest, respOk x = true :=
          fun x hx => hok x (List.mem_cons_of_mem _ hx)
        obtain ⟨ih2, ih1⟩ := ih (page + 1) hok' hstop'
        have htw : ((Resp.ok items true :: rest).takeWhile (fun r => !stopsResp r))
            = Resp.ok items true :: rest.takeWhile (fun r => !stopsResp r) := by
          simp [List.takeWhile, hnot]
        rw [htw]
        constructor
        · simp only [get_group_projects, hemp, Bool.false_eq_true, if_false, if_true]
          rw [List.length_cons, List.range'_succ, List.map_cons, ih2]
        · simp only [get_group_projects, hemp, Bool.false_eq_true, if_false, if_true]
          rw [List.length_cons]
          have htake : (Resp.ok items true :: rest).take
              ((rest.takeWhile (fun r => !stopsResp r)).length + 1 + 1)
              = Resp.ok items true
                :: rest.take ((rest.takeWhile (fun r => !stopsResp r)).length + 1) := by
            simp [List.take]
          rw [htake, List.map_cons, List.flatten_cons, ih1]
          rfl

/-- C8: on any sequence of successful page answers containing a stopping page
(an empty page or one without a `next` relation), the paginated fetch loop of
`get_group_projects` requests consecutive pages `(page=i, per_page=100)`
starting at i = 1, stops at the first stopping page, and returns the
concatenation of the items of all requested pages. -/
theorem c8_pagination (resps : List (Resp Project))
    (hok : ∀ r ∈ resps, respOk r = true)
    (hstop : ∃ r ∈ resps, stopsResp r = true) :
    (get_group_projects 1 resps).2
      = (List.range' 1 ((resps.takeWhile (fun r => !stopsResp r)).length + 1)).map
          (fun i => (i, 100)) ∧
    (get_group_projects 1 resps).1
      = ((resps.take ((resps.takeWhile (fun r => !stopsResp r)).length + 1)).map
          itemsOf).flatten :=
  get_group_projects_pages resps 1 hok hstop

/-- Witness for C8 at the spec's concrete example: page 1 is two projects with
a next link, page 2 is empty; the fetcher returns exactly the two projects and
sends exactly the two requests (1, 100) and (2, 100). -/
theorem c8_pagination_witness :
    ((∀ r ∈ ([Resp.ok [(⟨1, none⟩ : Project), ⟨2, none⟩] true, Resp.ok [] false]
        : List (Resp Project)), respOk r = true) ∧
     (∃ r ∈ ([Resp.ok [(⟨1, none⟩ : Project), ⟨2, none⟩] true, Resp.ok [] false]
        : List (Resp Project)), stopsResp r = true)) ∧
    ((get_group_projects 1 ([Resp.ok [(⟨1, none⟩ : Project), ⟨2, none⟩] true,
        Resp.ok [] false] : List (Resp Project))).2
      = (List.range' 1 ((([Resp.ok [(⟨1, none⟩ : Project), ⟨2, none⟩] true,
          Resp.ok [] false] : List (Resp Project)).takeWhile
            (fun r => !stopsResp r)).length + 1)).map (fun i => (i, 100)) ∧
     (get_group_projects 1 ([Resp.ok [(⟨1, none⟩ : Project), ⟨2, none⟩] true,
        Resp.ok [] false] : List (Resp Project))).1
      = ((([Resp.ok [(⟨1, none⟩ : Project), ⟨2, none⟩] true,
          Resp.ok [] false] : List (Resp Project)).take
            ((([Resp.ok [(⟨1, none⟩ : Project), ⟨2, none⟩] true,
              Resp.ok [] false] : List (Resp Project)).takeWhile
                (fun r => !stopsResp r)).length + 1)).map itemsOf).flatten) :=
  ⟨⟨by decide, by decide⟩,
   c8_pagination [Resp.ok [⟨1, none⟩, ⟨2, none⟩] true, Resp.ok [] false]
     (by decide) (by decide)⟩

/-- Counterexample to C2: when the first page request of the group-projects
listing fails with HTTP 404 (and likewise 401), `get_group_projects` does not
raise — the exception is caught inside the pagination loop and the function
returns the accumulated, here empty, project list. -/
theorem c2_counterexample :
    get_group_projects 1 ([Resp.err 404] : List (Resp Project)) = ([], [(1, 100)]) ∧
    get_group_projects 1 ([Resp.err 401] : List (Resp Project)) = ([], [(1, 100)]) := by
  constructor <;> rfl

/-- C2 (amended): an HTTP failure (404, 401 or any other status) on the first
group-projects page is swallowed by the pagination loop: `get_group_projects`
returns the empty project list after that single request, whatever comes
after, and no error propagates to the caller (the route layer later turns an
empty list into a 404 response). -/
theorem c2_error_swallowed_amended (status : Nat) (rest : List (Resp Project)) :
    get_group_projects 1 (Resp.err status :: rest) = ([], [(1, 100)]) := by
  rfl

/-- C4: partial-failure isolation in `_collect_project_stats`.  When commit
fetching raises but merge-request fetching succeeds, the returned ProjectStats
has `commits_available = false`, a `commits`-typed errors entry, and the
merge-request count and per-author merge-request tallies populated from the
successful fetch; symmetrically with the two data sources swapped. -/
theorem c4_partial_isolation (pid : Nat) (nm e1 e2 : String)
    (commits : List Commit) (mrs : List MergeRequest) :
    (∃ ps, _collect_project_stats ⟨pid, some nm⟩ (Except.error e1) (Except.ok mrs)
        = Except.ok ps
      ∧ ps.status.commits_available = false
      ∧ ps.status.merge_requests_available = true
      ∧ ps.errors = [⟨"commits", e1⟩]
      ∧ ps.merge_request_count = mrs.length
      ∧ ∀ a, (lookupCS ps.contributors a).merge_requests = countMRsBy mrs a) ∧
    (∃ ps, _collect_project_stats ⟨pid, some nm⟩ (Except.ok commits) (Except.error e2)
        = Except.ok ps
      ∧ ps.status.commits_available = true
      ∧ ps.status.merge_requests_available = false
      ∧ ps.errors = [⟨"merge_requests", e2⟩]
      ∧ ps.commit_count = commits.length
      ∧ ∀ a, (lookupCS ps.contributors a).commits = countCommitsBy commits a) := by
  constructor
  · refine ⟨_, rfl, rfl, rfl, rfl, rfl, fun a => ?_⟩
    show (lookupCS (mrs.foldl (fun m (mr : MergeRequest) =>
        match mr.author_name with
        | some x => addCS m x 0 1
        | none => m) []) a).merge_requests = countMRsBy mrs a
    rw [lookup_foldl_mrs]
    simp [lookupCS]
  · refine ⟨_, rfl, rfl, rfl, rfl, rfl, fun a => ?_⟩
    show (lookupCS (commits.foldl
        (fun m (c : Commit) => addCS m c.author_name 1 0) []) a).commits
      = countCommitsBy commits a
    rw [lookup_foldl_commits]
    simp [lookupCS]

/-- Counterexample to C3: a project whose existence verification fails (its
commit fetch raises "Project 5 not found") while its merge-request fetch
succeeds is NOT placed in skipped_projects — the exception is caught inside
`_collect_project_stats`, so the project ends up in `projects` and in
`partial_data_projects`. -/
theorem c3_counterexample :
    (collect_stats [⟨5, some "P"⟩]
      (fun _ => Except.error "Project 5 not found")
      (fun _ => Except.ok [])).skipped_projects = [] ∧
    (collect_stats [⟨5, some "P"⟩]
      (fun _ => Except.error "Project 5 not found")
      (fun _ => Except.ok [])).projects.map FormattedProject.id = [5] ∧
    (collect_stats [⟨5, some "P"⟩]
      (fun _ => Except.error "Project 5 not found")
      (fun _ => Except.ok [])).partial_data_projects.map PartialEntry.id = [5] := by
  refine ⟨rfl, rfl, rfl⟩

/-- C3 (amended): for a non-excluded project whose existence verification
fails (the commit fetch raises) while the merge-request fetch succeeds, the
failure is caught inside the per-project collector, not propagated:
`collect_stats` does not skip the project but keeps it in `projects` (with
its merge-request count) and records it in `partial_data_projects` with a
`commits`-typed error carrying the stringified reason. -/
theorem c3_not_found_amended (pid : Nat) (nm e : String) (mrs : List MergeRequest)
    (fC : Nat → Except String (List Commit))
    (fM : Nat → Except String (List MergeRequest))
    (hpid : pid ≠ 174) (hC : fC pid = Except.error e) (hM : fM pid = Except.ok mrs) :
    (collect_stats [⟨pid, some nm⟩] fC fM).skipped_projects = [] ∧
    (collect_stats [⟨pid, some nm⟩] fC fM).projects.map FormattedProject.id = [pid] ∧
    (collect_stats [⟨pid, some nm⟩] fC fM).partial_data_projects
      = [⟨pid, nm, [⟨"commits", e⟩]⟩] ∧
    (collect_stats [⟨pid, some nm⟩] fC fM).projects.map FormattedProject.merge_requests
      = [mrs.length] := by
  simp [collect_stats, stepProject, _collect_project_stats, hC, hM, hpid, initReport]

/-- Witness for the amended C3 at a concrete project and fetch outcomes. -/
theorem c3_not_found_amended_witness :
    ((5 : Nat) ≠ 174 ∧
      (fun _ : Nat => (Except.error "Project 5 not found" : Except String (List Commit))) 5
        = Except.error "Project 5 not found" ∧
      (fun _ : Nat => (Except.ok [] : Except String (List MergeRequest))) 5
        = Except.ok []) ∧
    ((collect_stats [⟨5, some "P"⟩]
        (fun _ => Except.error "Project 5 not found")
        (fun _ => Except.ok [])).skipped_projects = [] ∧
      (collect_stats [⟨5, some "P"⟩]
        (fun _ => Except.error "Project 5 not found")
        (fun _ => Except.ok [])).projects.map FormattedProject.id = [5] ∧
      (collect_stats [⟨5, some "P"⟩]
        (fun _ => Except.error "Project 5 not found")
        (fun _ => Except.ok [])).partial_data_projects
        = [⟨5, "P", [⟨"commits", "Project 5 not found"⟩]⟩] ∧
      (collect_stats [⟨5, some "P"⟩]
        (fun _ => Except.error "Project 5 not found")
        (fun _ => Except.ok [])).projects.map FormattedProject.merge_requests
        = [List.length ([] : List MergeRequest)]) :=
  ⟨⟨by decide, rfl, rfl⟩,
   c3_not_found_amended 5 "P" "Project 5 not found" []
     (fun _ => Except.error "Project 5 not found") (fun _ => Except.ok [])
     (by decide) rfl rfl⟩

/-- Counterexample to C9: a group whose listing comes back empty (one empty
page) is answered by the route with a 404 error, not with a zero-project
report. -/
theorem c9_counterexample :
    get_stats "7" [Resp.ok [] false]
      (fun _ => Except.ok []) (fun _ => Except.ok [])
      = RouteResult.errorResp 404 "No projects found in group 7" := by
  rfl

/-- C9 (amended): `collect_stats` itself treats an empty project list as
success (total_projects = 0, empty projects, nothing skipped), but the HTTP
route rejects any empty listing with a 404 error before collecting — both for
a genuinely empty group and for a nonexistent group, whose HTTP 404 the
listing loop swallows into an empty list; the HTTP caller therefore receives
an error, and the two cases are not distinguished. -/
theorem c9_empty_group_amended (gid : String)
    (fC : Nat → Except String (List Commit))
    (fM : Nat → Except String (List MergeRequest)) :
    (collect_stats [] fC fM).total_projects = 0 ∧
    (collect_stats [] fC fM).projects = [] ∧
    (collect_stats [] fC fM).skipped_projects = [] ∧
    get_stats gid [Resp.ok [] false] fC fM
      = RouteResult.errorResp 404 ("No projects found in group " ++ gid) ∧
    get_stats gid [Resp.err 404] fC fM
      = RouteResult.errorResp 404 ("No projects found in group " ++ gid) := by
  refine ⟨rfl, rfl, rfl, rfl, rfl⟩

/-- A skipped-projects entry survives one loop iteration. -/
lemma mem_skipped_step (fC : Nat → Except String (List Commit))
    (fM : Nat → Except String (List MergeRequest))
    (s : GroupReport) (p : Project) (e : SkippedEntry)
    (h : e ∈ s.skipped_projects) :
    e ∈ (stepProject fC fM s p).skipped_projects := by
  by_cases hid : p.id = 174
  · simp only [stepProject, hid, if_true]
    exact List.mem_append_left _ h
  · cases hc : _collect_project_stats p (fC p.id) (fM p.id) with
    | error e2 =>
      simp only [stepProject, hid, if_false, hc]
      exact List.mem_append_left _ h
    | ok ps =>
      simp only [stepProject, hid, if_false, hc]
      exact h

/-- A skipped-projects entry survives the rest of the loop. -/
lemma mem_skipped_foldl (fC : Nat → Except String (List Commit))
    (fM : Nat → Except String (List MergeRequest)) (e : SkippedEntry)
    (l : List Project) (s : GroupReport) (h : e ∈ s.skipped_projects) :
    e ∈ (l.foldl (stepProject fC fM) s).skipped_projects :=
  foldl_preserve (stepProject fC fM) (fun s => e ∈ s.skipped_projects)
    (fun s p => mem_skipped_step fC fM s p e) l s h

/-- The loop iteration on the excluded project id only appends the fixed
skip entry; no fetcher is consulted. -/
lemma step_excluded (fC : Nat → Except String (List Commit))
    (fM : Nat → Except String (List MergeRequest))
    (s : GroupReport) (p : Project) (hid : p.id = 174) :
    stepProject fC fM s p
      = { s with skipped_projects := s.skipped_projects
            ++ [⟨p.id, p.name.getD "Unknown", "Project ID temporarily excluded"⟩] } := by
  simp [stepProject, hid]

/-- Loop iterations agree for fetcher pairs that agree away from the excluded
id 174. -/
lemma step_congr (fC fC' : Nat → Except String (List Commit))
    (fM fM' : Nat → Except String (List MergeRequest))
    (hC : ∀ i, i ≠ 174 → fC i = fC' i) (hM : ∀ i, i ≠ 174 → fM i = fM' i)
    (s : GroupReport) (p : Project) :
    stepProject fC fM s p = stepProject fC' fM' s p := by
  by_cases hid : p.id = 174
  · simp [stepProject, hid]
  · unfold stepProject
    rw [hC p.id hid, hM p.id hid]

/-- The whole loop agrees for fetcher pairs that agree away from id 174. -/
lemma foldl_step_congr (fC fC' : Nat → Except String (List Commit))
    (fM fM' : Nat → Except String (List MergeRequest))
    (hC : ∀ i, i ≠ 174 → fC i = fC' i) (hM : ∀ i, i ≠ 174 → fM i = fM' i) :
    ∀ (l : List Project) (s : GroupReport),
      l.foldl (stepProject fC fM) s = l.foldl (stepProject fC' fM') s
  | [], _ => rfl
  | p :: l, s => by
    rw [List.foldl_cons, List.foldl_cons, step_congr fC fC' fM fM' hC hM s p,
      foldl_step_congr fC fC' fM fM' hC hM l _]

/-- One loop iteration maps equal cores to equal cores: the step never reads
`skipped_projects`, `total_projects` or `summary` while writing the core. -/
lemma step_core (fC : Nat → Except String (List Commit))
    (fM : Nat → Except String (List MergeRequest)) (p : Project)
    (s s' : GroupReport) (h : coreOf s = coreOf s') :
    coreOf (stepProject fC fM s p) = coreOf (stepProject fC fM s' p) := by
  simp only [coreOf, Prod.mk.injEq] at h
  obtain ⟨h1, h2, h3, h4, h5, h6⟩ := h
  by_cases hid : p.id = 174
  · simp [stepProject, hid, coreOf, h1, h2, h3, h4, h5, h6]
  · cases hc : _collect_project_stats p (fC p.id) (fM p.id) with
    | error e => simp [stepProject, hid, hc, coreOf, h1, h2, h3, h4, h5, h6]
    | ok ps => simp [stepProject, hid, hc, coreOf, h1, h2, h3, h4, h5, h6]

/-- The whole loop maps equal cores to equal cores. -/
lemma foldl_core (fC : Nat → Except String (List Commit))
    (fM : Nat → Except String (List MergeRequest)) :
    ∀ (l : List Project) (s s' : GroupReport),
      coreOf s = coreOf s' →
      coreOf (l.foldl (stepProject fC fM) s) = coreOf (l.foldl (stepProject fC fM) s')
  | [], _, _, h => h
  | p :: l, s, s', h =>
    foldl_core fC fM l _ _ (step_core fC fM p s s' h)

/-- The loop iteration on a project record without a name only appends the
KeyError skip entry. -/
lemma step_nameless (fC : Nat → Except String (List Commit))
    (fM : Nat → Except String (List MergeRequest))
    (s : GroupReport) (pid : Nat) (hpid : pid ≠ 174) :
    stepProject fC fM s ⟨pid, none⟩
      = { s with skipped_projects := s.skipped_projects
            ++ [⟨pid, "Unknown", "\x27name\x27"⟩] } := by
  simp [stepProject, hpid, _collect_project_stats]

/-- C5: in every report `collect_stats` returns, `total_commits` is the sum
of the commit counts of the entries of `projects`, and `total_merge_requests`
the sum of their merge-request counts; skipped projects contribute nothing. -/
theorem c5_totals (projects : List Project)
    (fC : Nat → Except String (List Commit))
    (fM : Nat → Except String (List MergeRequest)) :
    (collect_stats projects fC fM).total_commits
      = ((collect_stats projects fC fM).projects.map FormattedProject.commits).sum ∧
    (collect_stats projects fC fM).total_merge_requests
      = ((collect_stats projects fC fM).projects.map
          FormattedProject.merge_requests).sum := by
  have h := foldl_preserve (stepProject fC fM)
    (fun s => s.total_commits = (s.projects.map FormattedProject.commits).sum ∧
      s.total_merge_requests = (s.projects.map FormattedProject.merge_requests).sum)
    (fun s p hs => by
      obtain ⟨h1, h2⟩ := hs
      by_cases hid : p.id = 174
      · simpa [stepProject, hid] using And.intro h1 h2
      · cases hc : _collect_project_stats p (fC p.id) (fM p.id) with
        | error e => simpa [stepProject, hid, hc] using And.intro h1 h2
        | ok ps => simp [stepProject, hid, hc, h1, h2])
    projects (initReport projects.length) ⟨rfl, rfl⟩
  simpa [collect_stats] using h

/-- C6: in every report `collect_stats` returns, the group-level contributor
map is the pointwise sum of the per-project contributor views: for every
author, the group `commits` (resp. `merge_requests`) value equals the sum of
that author's per-project values over all processed projects. -/
theorem c6_contributor_rollup (projects : List Project)
    (fC : Nat → Except String (List Commit))
    (fM : Nat → Except String (List MergeRequest)) (a : String) :
    (lookupCS (collect_stats projects fC fM).contributors a).commits
      = ((collect_stats projects fC fM).projects.map
          (fun fp => fcCommitsOf fp.contributors a)).sum ∧
    (lookupCS (collect_stats projects fC fM).contributors a).merge_requests
      = ((collect_stats projects fC fM).projects.map
          (fun fp => fcMRsOf fp.contributors a)).sum := by
  have h := foldl_preserve (stepProject fC fM)
    (fun s => ∀ x,
      (lookupCS s.contributors x).commits
        = (s.projects.map (fun fp => fcCommitsOf fp.contributors x)).sum ∧
      (lookupCS s.contributors x).merge_requests
        = (s.projects.map (fun fp => fcMRsOf fp.contributors x)).sum)
    (fun s p hs => by
      intro x
      obtain ⟨h1, h2⟩ := hs x
      by_cases hid : p.id = 174
      · simpa [stepProject, hid] using And.intro h1 h2
      · cases hc : _collect_project_stats p (fC p.id) (fM p.id) with
        | error e => simpa [stepProject, hid, hc] using And.intro h1 h2
        | ok ps =>
          have hnodup := collect_contrib_nodup p (fC p.id) (fM p.id) ps hc
          simp [stepProject, hid, hc, lookup_foldl_entries, h1, h2,
            fcCommitsOf_map, fcMRsOf_map,
            sumCFor_eq_lookup x ps.contributors hnodup,
            sumMFor_eq_lookup x ps.contributors hnodup])
    projects (initReport projects.length) (fun x => ⟨rfl, rfl⟩)
  simpa [collect_stats] using h a

/-- C7: a project whose id is the hardcoded exclusion value 174 is appended to
`skipped_projects` with reason "Project ID temporarily excluded", and no data
collection happens for it: the whole report is unchanged when the fetchers
are replaced by any fetchers agreeing on every other project id, so whether
its commits or merge requests would be fetchable is irrelevant. -/
theorem c7_excluded_project (pre suf : List Project) (p : Project)
    (fC fC' : Nat → Except String (List Commit))
    (fM fM' : Nat → Except String (List MergeRequest))
    (hp : p.id = 174)
    (hC : ∀ i, i ≠ 174 → fC i = fC' i) (hM : ∀ i, i ≠ 174 → fM i = fM' i) :
    (⟨p.id, p.name.getD "Unknown", "Project ID temporarily excluded"⟩ : SkippedEntry)
      ∈ (collect_stats (pre ++ p :: suf) fC fM).skipped_projects ∧
    collect_stats (pre ++ p :: suf) fC fM = collect_stats (pre ++ p :: suf) fC' fM' := by
  constructor
  · show _ ∈ ((pre ++ p :: suf).foldl (stepProject fC fM)
      (initReport (pre ++ p :: suf).length)).skipped_projects
    rw [List.foldl_append, List.foldl_cons, step_excluded fC fM _ p hp]
    apply mem_skipped_foldl
    simp
  · have h := foldl_step_congr fC fC' fM fM' hC hM (pre ++ p :: suf)
      (initReport (pre ++ p :: suf).length)
    simp only [collect_stats]
    rw [h]

/-- Witness for C7: a concrete excluded project between no other projects,
with a second fetcher pair that fails on id 174 but agrees elsewhere. -/
theorem c7_excluded_project_witness :
    (((⟨174, some "X"⟩ : Project).id = 174) ∧
      (∀ i, i ≠ 174 →
        (fun _ : Nat => (Except.ok [] : Except String (List Commit))) i
          = (fun i : Nat => if i = 174 then Except.error "unfetchable"
              else Except.ok []) i) ∧
      (∀ i, i ≠ 174 →
        (fun _ : Nat => (Except.ok [] : Except String (List MergeRequest))) i
          = (fun i : Nat => if i = 174 then Except.error "unfetchable"
              else Except.ok []) i)) ∧
    ((⟨(⟨174, some "X"⟩ : Project).id, (⟨174, some "X"⟩ : Project).name.getD "Unknown",
        "Project ID temporarily excluded"⟩ : SkippedEntry)
      ∈ (collect_stats ([] ++ (⟨174, some "X"⟩ : Project) :: [])
          (fun _ => Except.ok []) (fun _ => Except.ok [])).skipped_projects ∧
      collect_stats ([] ++ (⟨174, some "X"⟩ : Project) :: [])
          (fun _ => Except.ok []) (fun _ => Except.ok [])
        = collect_stats ([] ++ (⟨174, some "X"⟩ : Project) :: [])
            (fun i => if i = 174 then Except.error "unfetchable" else Except.ok [])
            (fun i => if i = 174 then Except.error "unfetchable" else Except.ok [])) :=
  ⟨⟨rfl, fun i hi => (if_neg hi).symm, fun i hi => (if_neg hi).symm⟩,
   c7_excluded_project [] [] ⟨174, some "X"⟩
     (fun _ => Except.ok [])
     (fun i => if i = 174 then Except.error "unfetchable" else Except.ok [])
     (fun _ => Except.ok [])
     (fun i => if i = 174 then Except.error "unfetchable" else Except.ok [])
     rfl (fun i hi => (if_neg hi).symm) (fun i hi => (if_neg hi).symm)⟩

/-- C10: a listed project record without a name key never makes `collect_stats`
raise: the KeyError is caught, the project is skipped with name "Unknown" and
the stringified KeyError as reason, it contributes nothing to the totals,
the processed count, the projects list or the contributor map, and the
remaining projects are processed exactly as if it were absent. -/
theorem c10_nameless_project (pre suf : List Project) (pid : Nat)
    (fC : Nat → Except String (List Commit))
    (fM : Nat → Except String (List MergeRequest)) (hpid : pid ≠ 174) :
    (⟨pid, "Unknown", "\x27name\x27"⟩ : SkippedEntry)
      ∈ (collect_stats (pre ++ ⟨pid, none⟩ :: suf) fC fM).skipped_projects ∧
    (collect_stats (pre ++ ⟨pid, none⟩ :: suf) fC fM).total_commits
      = (collect_stats (pre ++ suf) fC fM).total_commits ∧
    (collect_stats (pre ++ ⟨pid, none⟩ :: suf) fC fM).total_merge_requests
      = (collect_stats (pre ++ suf) fC fM).total_merge_requests ∧
    (collect_stats (pre ++ ⟨pid, none⟩ :: suf) fC fM).processed_projects
      = (collect_stats (pre ++ suf) fC fM).processed_projects ∧
    (collect_stats (pre ++ ⟨pid, none⟩ :: suf) fC fM).projects
      = (collect_stats (pre ++ suf) fC fM).projects ∧
    (collect_stats (pre ++ ⟨pid, none⟩ :: suf) fC fM).contributors
      = (collect_stats (pre ++ suf) fC fM).contributors := by
  have hskip : (⟨pid, "Unknown", "\x27name\x27"⟩ : SkippedEntry)
      ∈ (collect_stats (pre ++ ⟨pid, none⟩ :: suf) fC fM).skipped_projects := by
    show _ ∈ ((pre ++ ⟨pid, none⟩ :: suf).foldl (stepProject fC fM)
      (initReport (pre ++ ⟨pid, none⟩ :: suf).length)).skipped_projects
    rw [List.foldl_append, List.foldl_cons, step_nameless fC fM _ pid hpid]
    apply mem_skipped_foldl
    simp
  have hcore : coreOf ((pre ++ ⟨pid, none⟩ :: suf).foldl (stepProject fC fM)
        (initReport (pre ++ ⟨pid, none⟩ :: suf).length))
      = coreOf ((pre ++ suf).foldl (stepProject fC fM)
        (initReport (pre ++ suf).length)) := by
    rw [List.foldl_append, List.foldl_cons, List.foldl_append,
      step_nameless fC fM _ pid hpid]
    refine foldl_core fC fM suf _ _ ?_
    have hpre : coreOf (pre.foldl (stepProject fC fM)
          (initReport (pre ++ ⟨pid, none⟩ :: suf).length))
        = coreOf (pre.foldl (stepProject fC fM)
          (initReport (pre ++ suf).length)) :=
      foldl_core fC fM pre _ _ rfl
    exact hpre
  simp only [coreOf, Prod.mk.injEq] at hcore
  obtain ⟨h1, h2, h3, h4, h5, h6⟩ := hcore
  exact ⟨hskip, h1, h2, h3, h4, h5⟩

/-- Witness for C10: a concrete nameless project followed by a named one. -/
theorem c10_nameless_project_witness :
    ((1 : Nat) ≠ 174) ∧
    ((⟨1, "Unknown", "\x27name\x27"⟩ : SkippedEntry)
      ∈ (collect_stats ([] ++ ⟨1, none⟩ :: [⟨2, some "Q"⟩])
          (fun _ => Except.ok []) (fun _ => Except.ok [])).skipped_projects ∧
     (collect_stats ([] ++ ⟨1, none⟩ :: [⟨2, some "Q"⟩])
        (fun _ => Except.ok []) (fun _ => Except.ok [])).total_commits
      = (collect_stats ([] ++ [⟨2, some "Q"⟩])
          (fun _ => Except.ok []) (fun _ => Except.ok [])).total_commits ∧
     (collect_stats ([] ++ ⟨1, none⟩ :: [⟨2, some "Q"⟩])
        (fun _ => Except.ok []) (fun _ => Except.ok [])).total_merge_requests
      = (collect_stats ([] ++ [⟨2, some "Q"⟩])
          (fun _ => Except.ok []) (fun _ => Except.ok [])).total_merge_requests ∧
     (collect_stats ([] ++ ⟨1, none⟩ :: [⟨2, some "Q"⟩])
        (fun _ => Except.ok []) (fun _ => Except.ok [])).processed_projects
      = (collect_stats ([] ++ [⟨2, some "Q"⟩])
          (fun _ => Except.ok []) (fun _ => Except.ok [])).processed_projects ∧
     (collect_stats ([] ++ ⟨1, none⟩ :: [⟨2, some "Q"⟩])
        (fun _ => Except.ok []) (fun _ => Except.ok [])).projects
      = (collect_stats ([] ++ [⟨2, some "Q"⟩])
          (fun _ => Except.ok []) (fun _ => Except.ok [])).projects ∧
     (collect_stats ([] ++ ⟨1, none⟩ :: [⟨2, some "Q"⟩])
        (fun _ => Except.ok []) (fun _ => Except.ok [])).contributors
      = (collect_stats ([] ++ [⟨2, some "Q"⟩])
          (fun _ => Except.ok []) (fun _ => Except.ok [])).contributors) :=
  ⟨by decide,
   c10_nameless_project [] [⟨2, some "Q"⟩] 1
     (fun _ => Except.ok []) (fun _ => Except.ok []) (by decide)⟩

end GitlabStats
